import Mathlib

/-!
Verification of the Guile JIT/VM excerpt: the gsubr arity descriptor macros
(libguile/gsubr.h), the bytecode instruction metadata registry
(libguile/instructions.c), and the JIT float-equality branch test
(tests/beqr_f.c).  C macros and functions are shallowly embedded as Lean
functions; the lazily initialized global table of instructions.c is embedded
as explicit state passing.
-/

namespace Guile

/-! ## gsubr.h: arity descriptor macros

`SCM_GSUBR_MAKTYPE(req, opt, rst) = (req)|((opt)<<4)|((rst)<<8)` and the
decoders `SCM_GSUBR_REQ`, `SCM_GSUBR_OPT`, `SCM_GSUBR_REST`.  The C operands
are non-negative machine integers; we embed them as `Nat` with the same
bitwise operations. -/

def SCM_GSUBR_MAKTYPE (req opt rst : Nat) : Nat :=
  req ||| (opt <<< 4) ||| (rst <<< 8)

def SCM_GSUBR_MAX : Nat := 33

def SCM_GSUBR_REQ (x : Nat) : Nat := x &&& 0xf

def SCM_GSUBR_OPT (x : Nat) : Nat := (x &&& 0xf0) >>> 4

def SCM_GSUBR_REST (x : Nat) : Nat := x >>> 8

inductive GsubrError where
  | InvalidArity
deriving DecidableEq

/-- Modelled from the spec: the body of `scm_c_make_gsubr` is not part of the
excerpt (only its declaration in gsubr.h is); per the spec the registration
facility "enforces that `required + optional` does not exceed a fixed maximum
arity bound (the reference system uses 33) and that `rest` is boolean", and
on success produces the arity descriptor packed by `SCM_GSUBR_MAKTYPE`. -/
def scm_c_make_gsubr (req opt : Nat) (rst : Bool) : Except GsubrError Nat :=
  if SCM_GSUBR_MAX < req + opt then .error .InvalidArity
  else .ok (SCM_GSUBR_MAKTYPE req opt (if rst then 1 else 0))

end Guile

namespace Guile

/-! ## instructions.c: the bytecode instruction metadata registry

`struct scm_instruction` holds `opcode, name, len, npop, npush, symname`.
The table contents come from the `vm-i-*.i` include files, which are not part
of the excerpt; we therefore parameterize everything by `d : List InstrDef`,
the per-opcode data those includes write into the freshly zeroed table
(`scm_op_last` is the table length).  `fetch_instruction_table` then assigns
`table[i].opcode = i` and `table[i].symname = name_i` (or false).  The lazy
static globals `table` and `instructions_by_name` are embedded as an explicit
`InstrState` threaded through every operation. -/

/-- One opcode's data as filled in by the `VM_INSTRUCTION_TO_TABLE` includes:
`name` (NULL for holes), `len`, `npop`, `npush`. -/
structure InstrDef where
  name : Option String
  len : Int
  npop : Int
  npush : Int
deriving DecidableEq

/-- `scm_op_last`: the number of entries allocated for the table. -/
def scm_op_last (d : List InstrDef) : Nat := d.length

/-- `struct scm_instruction` after initialization (`symname` filled in; the
false value `SCM_BOOL_F` is embedded as `none`). -/
structure ScmInstruction where
  opcode : Nat
  name : Option String
  len : Int
  npop : Int
  npush : Int
  symname : Option String
deriving DecidableEq

/-- The initialization loop of `fetch_instruction_table`: entry `i` gets
`opcode = i` and `symname` from its name (false when the name is NULL). -/
def buildTableAux : List InstrDef → Nat → List ScmInstruction
  | [], _ => []
  | a :: rest, i =>
      { opcode := i, name := a.name, len := a.len, npop := a.npop,
        npush := a.npush, symname := a.name } :: buildTableAux rest (i + 1)

def buildTable (d : List InstrDef) : List ScmInstruction := buildTableAux d 0

/-- `scm_hashq_set_x` on the name index: overwrite an existing binding for the
key, otherwise append a new one. -/
def hashqSet (h : List (String × Nat)) (k : String) (v : Nat) :
    List (String × Nat) :=
  if h.any (fun p => p.1 = k) then
    h.map (fun p => if p.1 = k then (k, v) else p)
  else h ++ [(k, v)]

/-- `scm_hashq_ref` on the name index. -/
def hashqRef (h : List (String × Nat)) (k : String) : Option Nat :=
  (h.find? (fun p => p.1 = k)).map Prod.snd

/-- The index-building loop of `scm_lookup_instruction_by_name`: for each
`i < scm_op_last` with a true `symname`, map the name to `i` (later entries
overwrite earlier bindings, as `scm_hashq_set_x` does). -/
def buildByNameAux : List ScmInstruction → Nat → List (String × Nat) →
    List (String × Nat)
  | [], _, h => h
  | e :: rest, i, h =>
      buildByNameAux rest (i + 1)
        (match e.symname with
         | some s => hashqSet h s i
         | none => h)

def buildByName (t : List ScmInstruction) : List (String × Nat) :=
  buildByNameAux t 0 []

/-- The two lazily initialized static globals of instructions.c:
`table` in `fetch_instruction_table` and `instructions_by_name` in
`scm_lookup_instruction_by_name` (`none` embeds the uninitialized state). -/
structure InstrState where
  table : Option (List ScmInstruction)
  byName : Option (List (String × Nat))
deriving DecidableEq

/-- The state before any registry call (both statics unset). -/
def emptyState : InstrState := ⟨none, none⟩

/-- The state after both lazy initializations have run. -/
def initState (d : List InstrDef) : InstrState :=
  ⟨some (buildTable d), some (buildByName (buildTable d))⟩

/-- `fetch_instruction_table`: build the table on first access, afterwards
return the cached one. -/
def fetch_instruction_table (d : List InstrDef) (s : InstrState) :
    List ScmInstruction × InstrState :=
  match s.table with
  | some t => (t, s)
  | none => (buildTable d, { s with table := some (buildTable d) })

/-- `scm_lookup_instruction_by_name`: build the name index on first access,
then look the name up; a hit returns the table entry the stored index points
at (the C function returns `&table[i]`), a miss returns NULL (`none`). -/
def scm_lookup_instruction_by_name (d : List InstrDef) (s : InstrState)
    (name : String) : Option ScmInstruction × InstrState :=
  let p := fetch_instruction_table d s
  let q : List (String × Nat) × InstrState :=
    match p.2.byName with
    | some h => (h, p.2)
    | none => (buildByName p.1, { p.2 with byName := some (buildByName p.1) })
  match hashqRef q.1 name with
  | some i => (p.1.get? i, q.2)
  | none => (none, q.2)

/-- Result of a registry operation: a value, a `scm_wrong_type_arg` error, or
an out-of-bounds read of the malloc'd table (undefined behavior in C). -/
inductive ScmResult (α : Type) where
  | ok : α → ScmResult α
  | wrongType : ScmResult α
  | oobRead : ScmResult α
deriving DecidableEq

/-- The loop of `scm_instruction_list`: walk the table from its first entry
while `ip->opcode != scm_op_last`, consing `symname` for named entries.
Reading past the `scm_op_last` allocated entries is an out-of-bounds read.
`fuel` bounds the recursion; with `fuel = t.length + 1` it never runs out. -/
def instrListLoop (n : Nat) (t : List ScmInstruction) :
    Nat → Nat → List (Option String) → ScmResult (List (Option String))
  | 0, _, acc => .ok acc.reverse
  | fuel + 1, i, acc =>
      match t.get? i with
      | none => .oobRead
      | some e =>
          if e.opcode = n then .ok acc.reverse
          else
            instrListLoop n t fuel (i + 1)
              (if e.name.isSome then e.symname :: acc else acc)

/-- `scm_instruction_list`. -/
def scm_instruction_list (d : List InstrDef) (s : InstrState) :
    ScmResult (List (Option String)) × InstrState :=
  let p := fetch_instruction_table d s
  (instrListLoop (scm_op_last d) p.1 (p.1.length + 1) 0 [], p.2)

/-- `scm_instruction_p`: true iff the name lookup returns non-NULL. -/
def scm_instruction_p (d : List InstrDef) (s : InstrState) (obj : String) :
    Bool × InstrState :=
  let p := scm_lookup_instruction_by_name d s obj
  (p.1.isSome, p.2)

/-- `scm_instruction_length`: validate via lookup, then return `ip->len`. -/
def scm_instruction_length (d : List InstrDef) (s : InstrState)
    (inst : String) : ScmResult Int × InstrState :=
  let p := scm_lookup_instruction_by_name d s inst
  match p.1 with
  | some ip => (.ok ip.len, p.2)
  | none => (.wrongType, p.2)

/-- `scm_instruction_pops`: validate via lookup, then return `ip->npop`. -/
def scm_instruction_pops (d : List InstrDef) (s : InstrState)
    (inst : String) : ScmResult Int × InstrState :=
  let p := scm_lookup_instruction_by_name d s inst
  match p.1 with
  | some ip => (.ok ip.npop, p.2)
  | none => (.wrongType, p.2)

/-- `scm_instruction_pushes`: validate via lookup, then return `ip->npush`. -/
def scm_instruction_pushes (d : List InstrDef) (s : InstrState)
    (inst : String) : ScmResult Int × InstrState :=
  let p := scm_lookup_instruction_by_name d s inst
  match p.1 with
  | some ip => (.ok ip.npush, p.2)
  | none => (.wrongType, p.2)

/-- `scm_instruction_to_opcode`: validate via lookup, then return
`ip->opcode`. -/
def scm_instruction_to_opcode (d : List InstrDef) (s : InstrState)
    (inst : String) : ScmResult Int × InstrState :=
  let p := scm_lookup_instruction_by_name d s inst
  match p.1 with
  | some ip => (.ok (ip.opcode : Int), p.2)
  | none => (.wrongType, p.2)

/-- `scm_opcode_to_instruction`: the argument is already validated to be an
integer (`SCM_MAKE_VALIDATE(1, op, I_INUMP)`), so the embedding takes `Int`.
The code only checks `opcode < scm_op_last` before reading
`fetch_instruction_table()[opcode]`; a negative opcode passes that check and
the read is out of bounds.  A false `symname` (or `opcode >= scm_op_last`)
yields `scm_wrong_type_arg_msg`. -/
def scm_opcode_to_instruction (d : List InstrDef) (s : InstrState)
    (op : Int) : ScmResult String × InstrState :=
  if op < (scm_op_last d : Int) then
    let p := fetch_instruction_table d s
    if 0 ≤ op then
      match p.1.get? op.toNat with
      | some e =>
          match e.symname with
          | some nm => (.ok nm, p.2)
          | none => (.wrongType, p.2)
      | none => (.oobRead, p.2)
    else (.oobRead, p.2)
  else (.wrongType, s)

/-! ### Lemmas about the table and the name index -/

theorem buildTableAux_length (d : List InstrDef) :
    ∀ i, (buildTableAux d i).length = d.length := by
  induction d with
  | nil => intro i; rfl
  | cons a rest ih => intro i; simp [buildTableAux, ih]

theorem buildTable_length (d : List InstrDef) :
    (buildTable d).length = d.length := buildTableAux_length d 0

theorem buildTableAux_opcode (d : List InstrDef) :
    ∀ i j e, (buildTableAux d i).get? j = some e → e.opcode = i + j := by
  induction d with
  | nil => intro i j e hj; simp [buildTableAux] at hj
  | cons a rest ih =>
    intro i j e hj
    cases j with
    | zero =>
      simp [buildTableAux] at hj
      rw [← hj]
      simp
    | succ j2 =>
      have h2 := ih (i + 1) j2 e (by simpa [buildTableAux] using hj)
      omega

theorem buildTable_opcode (d : List InstrDef) (j : Nat) (e : ScmInstruction)
    (hj : (buildTable d).get? j = some e) : e.opcode = j := by
  simpa using buildTableAux_opcode d 0 j e hj

theorem hashqSet_cons_of_ne (p : String × Nat) (rest : List (String × Nat))
    (k : String) (v : Nat) (hp : p.1 ≠ k) :
    hashqSet (p :: rest) k v = p :: hashqSet rest k v := by
  simp only [hashqSet, List.any_cons, List.map_cons]
  rw [if_neg hp]
  simp only [decide_eq_true_eq, hp, decide_False, Bool.false_or]
  split <;> simp

theorem hashqRef_set_self (h : List (String × Nat)) (k : String) (v : Nat) :
    hashqRef (hashqSet h k v) k = some v := by
  induction h with
  | nil => simp [hashqSet, hashqRef]
  | cons p rest ih =>
    by_cases hp : p.1 = k
    · simp only [hashqSet, List.any_cons, hp, decide_True, Bool.true_or,
        if_true, List.map_cons, if_pos hp]
      simp [hashqRef]
    · rw [hashqSet_cons_of_ne p rest k v hp]
      simp only [hashqRef, List.find?_cons]
      rw [show (decide (p.1 = k)) = false by simp [hp]]
      exact ih

theorem hashqRef_map_overwrite (rest : List (String × Nat)) (k k2 : String)
    (v : Nat) (hk : k2 ≠ k) :
    hashqRef (rest.map (fun p => if p.1 = k then (k, v) else p)) k2 =
      hashqRef rest k2 := by
  induction rest with
  | nil => rfl
  | cons q qs ih =>
    by_cases hq : q.1 = k
    · simp only [List.map_cons, if_pos hq]
      simp only [hashqRef, List.find?_cons]
      rw [show (decide ((k, v).1 = k2)) = false by simp [Ne.symm hk],
        show (decide (q.1 = k2)) = false by simp [hq, Ne.symm hk]]
      exact ih
    · simp only [List.map_cons, if_neg hq]
      by_cases hd : q.1 = k2
      · simp [hashqRef, List.find?_cons, hd]
      · simp only [hashqRef, List.find?_cons] at ih ⊢
        rw [show (decide (q.1 = k2)) = false by simp [hd]]
        exact ih

theorem hashqRef_set_other (h : List (String × Nat)) (k k2 : String) (v : Nat)
    (hk : k2 ≠ k) : hashqRef (hashqSet h k v) k2 = hashqRef h k2 := by
  induction h with
  | nil =>
    simp [hashqSet, hashqRef, Ne.symm hk]
  | cons p rest ih =>
    by_cases hp : p.1 = k
    · simp only [hashqSet, List.any_cons, hp, decide_True, Bool.true_or,
        if_true, List.map_cons, if_pos hp]
      simp only [hashqRef, List.find?_cons]
      rw [show (decide ((k, v).1 = k2)) = false by simp [Ne.symm hk],
        show (decide (p.1 = k2)) = false by simp [hp, Ne.symm hk]]
      exact hashqRef_map_overwrite rest k k2 v hk
    · rw [hashqSet_cons_of_ne p rest k v hp]
      by_cases hd : p.1 = k2
      · simp [hashqRef, List.find?_cons, hd]
      · simp only [hashqRef, List.find?_cons] at ih ⊢
        rw [show (decide (p.1 = k2)) = false by simp [hd]]
        exact ih

theorem hashqRef_set_isSome (h : List (String × Nat)) (k : String) (v : Nat)
    (s : String) (hs : (hashqRef h s).isSome) :
    (hashqRef (hashqSet h k v) s).isSome := by
  by_cases hsk : s = k
  · subst hsk; rw [hashqRef_set_self]; rfl
  · rw [hashqRef_set_other h k s v hsk]; exact hs

/-- Soundness of the name index: a binding for `s` produced by the build loop
points at a table entry whose `symname` is `s` (or was already in the initial
index). -/
theorem buildByNameAux_sound (t : List ScmInstruction) :
    ∀ i h s v, hashqRef (buildByNameAux t i h) s = some v →
      (∃ j e, t.get? j = some e ∧ e.symname = some s ∧ v = i + j) ∨
      hashqRef h s = some v := by
  induction t with
  | nil => intro i h s v hv; exact .inr hv
  | cons e rest ih =>
    intro i h s v hv
    cases hsym : e.symname with
    | none =>
      have hv2 : hashqRef (buildByNameAux rest (i + 1) h) s = some v := by
        simpa [buildByNameAux, hsym] using hv
      rcases ih (i + 1) h s v hv2 with ⟨j, e2, hj, hs2, hvj⟩ | href
      · exact .inl ⟨j + 1, e2, by simpa using hj, hs2, by omega⟩
      · exact .inr href
    | some s0 =>
      have hv2 : hashqRef (buildByNameAux rest (i + 1) (hashqSet h s0 i)) s
          = some v := by
        simpa [buildByNameAux, hsym] using hv
      rcases ih (i + 1) _ s v hv2 with ⟨j, e2, hj, hs2, hvj⟩ | href
      · exact .inl ⟨j + 1, e2, by simpa using hj, hs2, by omega⟩
      · by_cases hss : s = s0
        · subst hss
          rw [hashqRef_set_self] at href
          refine .inl ⟨0, e, rfl, hsym, ?_⟩
          injection href with hiv
          omega

        · rw [hashqRef_set_other h s0 s i hss] at href
          exact .inr href

theorem buildByNameAux_isSome (t : List ScmInstruction) :
    ∀ i h s, (hashqRef h s).isSome →
      (hashqRef (buildByNameAux t i h) s).isSome := by
  induction t with
  | nil => intro i h s hs; exact hs
  | cons e rest ih =>
    intro i h s hs
    cases hsym : e.symname with
    | none => simpa [buildByNameAux, hsym] using ih (i + 1) h s hs
    | some s0 =>
      have := ih (i + 1) (hashqSet h s0 i) s (hashqRef_set_isSome h s0 i s hs)
      simpa [buildByNameAux, hsym] using this

/-- Completeness of the name index: every named table entry ends up with a
binding for its name. -/
theorem buildByNameAux_complete (t : List ScmInstruction) :
    ∀ i h j e s, t.get? j = some e → e.symname = some s →
      (hashqRef (buildByNameAux t i h) s).isSome := by
  induction t with
  | nil => intro i h j e s hj; simp at hj
  | cons e0 rest ih =>
    intro i h j e s hj hs
    cases j with
    | zero =>
      simp at hj
      subst hj
      have hsome : (hashqRef (hashqSet h s i) s).isSome := by
        rw [hashqRef_set_self]; rfl
      have := buildByNameAux_isSome rest (i + 1) (hashqSet h s i) s hsome
      simpa [buildByNameAux, hs] using this
    | succ j2 =>
      have hj2 : rest.get? j2 = some e := by simpa using hj
      have := ih (i + 1)
        (match e0.symname with
         | some s1 => hashqSet h s1 i
         | none => h) j2 e s hj2 hs
      simpa [buildByNameAux] using this

/-- `nm` names a registered instruction: some table entry carries it as
`symname`. -/
def registered (d : List InstrDef) (nm : String) : Prop :=
  ∃ e ∈ buildTable d, e.symname = some nm

instance (d : List InstrDef) (nm : String) : Decidable (registered d nm) :=
  List.decidableBEx _ (buildTable d)

theorem buildByName_sound (t : List ScmInstruction) (s : String) (v : Nat)
    (hv : hashqRef (buildByName t) s = some v) :
    ∃ e, t.get? v = some e ∧ e.symname = some s := by
  rcases buildByNameAux_sound t 0 [] s v hv with ⟨j, e, hj, hs, hvj⟩ | href
  · exact ⟨e, by simpa [show v = j by omega] using hj, hs⟩
  · simp [hashqRef] at href

theorem buildByName_isSome_iff (d : List InstrDef) (s : String) :
    (hashqRef (buildByName (buildTable d)) s).isSome ↔ registered d s := by
  constructor
  · intro hs
    rcases Option.isSome_iff_exists.mp hs with ⟨v, hv⟩
    rcases buildByName_sound (buildTable d) s v hv with ⟨e, hv2, hsym⟩
    exact ⟨e, List.get?_mem hv2, hsym⟩
  · rintro ⟨e, hmem, hsym⟩
    rcases List.mem_iff_get?.mp hmem with ⟨j, hj⟩
    exact buildByNameAux_complete (buildTable d) 0 [] j e s hj hsym

/-! ### Lookup at an initialized state -/

theorem lookup_initState_snd (d : List InstrDef) (nm : String) :
    (scm_lookup_instruction_by_name d (initState d) nm).2 = initState d := by
  simp only [scm_lookup_instruction_by_name, fetch_instruction_table, initState]
  cases hashqRef (buildByName (buildTable d)) nm <;> rfl

theorem lookup_initState_fst (d : List InstrDef) (nm : String) :
    (scm_lookup_instruction_by_name d (initState d) nm).1 =
      (hashqRef (buildByName (buildTable d)) nm).bind
        (fun i => (buildTable d).get? i) := by
  simp only [scm_lookup_instruction_by_name, fetch_instruction_table, initState]
  cases hashqRef (buildByName (buildTable d)) nm <;> rfl

/-- A successful lookup at the initialized state returns a table entry whose
`symname` is the looked-up name and whose `opcode` is its table index. -/
theorem lookup_initState_sound (d : List InstrDef) (nm : String)
    (ip : ScmInstruction)
    (h : (scm_lookup_instruction_by_name d (initState d) nm).1 = some ip) :
    (buildTable d).get? ip.opcode = some ip ∧ ip.symname = some nm := by
  rw [lookup_initState_fst] at h
  rcases Option.bind_eq_some.mp h with ⟨v, hv, hg⟩
  rcases buildByName_sound (buildTable d) nm v hv with ⟨e, hv2, hsym⟩
  rw [hv2] at hg
  have he : e = ip := by injection hg
  subst he
  have hop := buildTable_opcode d v e hv2
  rw [hop]
  exact ⟨hv2, hsym⟩

theorem lookup_initState_isSome_iff (d : List InstrDef) (nm : String) :
    (scm_lookup_instruction_by_name d (initState d) nm).1.isSome ↔
      registered d nm := by
  rw [lookup_initState_fst]
  constructor
  · intro hs
    rcases Option.isSome_iff_exists.mp hs with ⟨ip, hip⟩
    rcases Option.bind_eq_some.mp hip with ⟨v, hv, _⟩
    exact (buildByName_isSome_iff d nm).mp (by rw [hv]; rfl)
  · intro hreg
    rcases Option.isSome_iff_exists.mp
      ((buildByName_isSome_iff d nm).mpr hreg) with ⟨v, hv⟩
    rcases buildByName_sound (buildTable d) nm v hv with ⟨e, hv2, _⟩
    rw [hv, Option.some_bind, hv2]
    rfl

/-- Modelled from the spec: the table contents (the `vm-i-*.i` include files)
are not part of the excerpt; the spec promises "bidirectional name-to-opcode
lookup", so distinct opcodes carry distinct names.  This predicate states that
assumption about the abstract table data, decidably. -/
def namesInjective (d : List InstrDef) : Prop :=
  ∀ i < (buildTable d).length, ∀ j < (buildTable d).length,
    ((buildTable d).get? i).bind ScmInstruction.symname ≠ none →
    ((buildTable d).get? i).bind ScmInstruction.symname =
      ((buildTable d).get? j).bind ScmInstruction.symname → i = j

theorem get?_lt_length {α : Type} (l : List α) (j : Nat) (a : α)
    (h : l.get? j = some a) : j < l.length := by
  by_contra hge
  rw [List.get?_eq_none.mpr (le_of_not_lt hge)] at h
  exact absurd h (by simp)

theorem getElem?_of_get? {α : Type} (l : List α) (j : Nat) (a : α)
    (h : l.get? j = some a) : l[j]? = some a := by
  rw [← List.get?_eq_getElem?]
  exact h

instance (d : List InstrDef) : Decidable (namesInjective d) := by
  unfold namesInjective
  infer_instance

/-- A concrete instruction table used by the witnesses below. -/
def sampleDefs : List InstrDef :=
  [⟨some "nop", 1, 0, 0⟩, ⟨some "halt", 1, 0, 1⟩]

end Guile

namespace Guile

/-- C4: name and opcode lookup are mutually inverse over registered
instructions.  For every name `nm` that `instruction->opcode` accepts with
result `k`, `opcode->instruction k` returns `nm` back; and for every opcode
`k` whose table entry has a name `nm`, `opcode->instruction k = nm` and
`instruction->opcode nm = k`.  (The table contents are abstract; the spec's
bidirectional-lookup contract supplies the `namesInjective` hypothesis.) -/
theorem instruction_opcode_roundtrip (d : List InstrDef)
    (hinj : namesInjective d) :
    (∀ nm k, (scm_instruction_to_opcode d (initState d) nm).1 = .ok k →
      (scm_opcode_to_instruction d (initState d) k).1 = .ok nm) ∧
    (∀ k e nm, (buildTable d).get? k = some e → e.symname = some nm →
      (scm_opcode_to_instruction d (initState d) (k : Int)).1 = .ok nm ∧
      (scm_instruction_to_opcode d (initState d) nm).1 = .ok (k : Int)) := by
  have hfetch : fetch_instruction_table d (initState d) =
      (buildTable d, initState d) := by
    simp [fetch_instruction_table, initState]
  have hforward : ∀ k e nm, (buildTable d).get? k = some e →
      e.symname = some nm →
      (scm_opcode_to_instruction d (initState d) (k : Int)).1 = .ok nm := by
    intro k e nm hget hsym
    have hlt : k < (buildTable d).length := get?_lt_length _ k e hget
    have hltn : ((k : Int) < (scm_op_last d : Int)) := by
      rw [buildTable_length] at hlt
      exact_mod_cast hlt
    simp only [scm_opcode_to_instruction, if_pos hltn, hfetch]
    rw [if_pos (by positivity : (0 : Int) ≤ (k : Int))]
    simp [getElem?_of_get? _ k e hget, hsym]
  constructor
  · intro nm k hk
    cases hl : (scm_lookup_instruction_by_name d (initState d) nm).1 with
    | none => simp [scm_instruction_to_opcode, hl] at hk
    | some ip =>
      have hk2 : (ip.opcode : Int) = k := by
        have : ScmResult.ok (α := Int) (ip.opcode : Int) = .ok k := by
          simpa [scm_instruction_to_opcode, hl] using hk
        injection this
      obtain ⟨hget, hsym⟩ := lookup_initState_sound d nm ip hl
      rw [← hk2]
      exact hforward ip.opcode ip nm hget hsym
  · intro k e nm hget hsym
    have hlt : k < (buildTable d).length := get?_lt_length _ k e hget
    refine ⟨hforward k e nm hget hsym, ?_⟩
    have hreg : registered d nm := ⟨e, List.get?_mem hget, hsym⟩
    obtain ⟨v, hv⟩ := Option.isSome_iff_exists.mp
      ((buildByName_isSome_iff d nm).mpr hreg)
    obtain ⟨e2, hv2, hsym2⟩ := buildByName_sound (buildTable d) nm v hv
    have hvlt : v < (buildTable d).length := get?_lt_length _ v e2 hv2
    have hvk : v = k := by
      apply hinj v hvlt k hlt
      · rw [hv2]
        simp [hsym2]
      · rw [hv2, hget]
        simp [hsym2, hsym]
    subst hvk
    have hop : e2.opcode = v := buildTable_opcode d v e2 hv2
    simp [scm_instruction_to_opcode, lookup_initState_fst, hv,
      getElem?_of_get? _ v e2 hv2, hop]

/-- Witness for C4 on a concrete two-instruction table: opcode 1 is named
"halt", and the two lookups invert each other there. -/
theorem instruction_opcode_roundtrip_witness :
    (scm_opcode_to_instruction sampleDefs (initState sampleDefs)
      ((1 : Nat) : Int)).1 = .ok "halt" ∧
    (scm_instruction_to_opcode sampleDefs (initState sampleDefs) "halt").1 =
      .ok ((1 : Nat) : Int) :=
  (instruction_opcode_roundtrip sampleDefs (by decide)).2 1
    ⟨1, some "halt", 1, 0, 1, some "halt"⟩ "halt" (by rfl) (by rfl)

/-- The `instruction-list` loop never finds its sentinel: initialization
assigns opcodes `0 .. scm_op_last - 1`, so no entry has opcode
`scm_op_last`, and the walk reads one entry past the allocated table. -/
theorem instrListLoop_oob (t : List ScmInstruction)
    (hop : ∀ j e, t.get? j = some e → e.opcode = j) :
    ∀ fuel j acc, j ≤ t.length → t.length + 1 - j ≤ fuel →
      instrListLoop t.length t fuel j acc = .oobRead := by
  intro fuel
  induction fuel with
  | zero => intro j acc hj hf; omega
  | succ fuel ih =>
    intro j acc hj hf
    rcases Nat.lt_or_ge j t.length with hlt | hge
    · obtain ⟨e, he⟩ : ∃ e, t.get? j = some e :=
        ⟨t.get ⟨j, hlt⟩, List.get?_eq_get hlt⟩
      have hne : e.opcode ≠ t.length := by
        rw [hop j e he]
        omega
      simp only [instrListLoop, he]
      rw [if_neg hne]
      exact ih (j + 1) _ (by omega) (by omega)
    · have hj2 : j = t.length := by omega
      subst hj2
      have hnone : t.get? t.length = none := List.get?_eq_none.mpr (le_refl _)
      simp [instrListLoop, hnone]

/-- C5 (code bug): `instruction-list` walks past the end of the table.  The
loop advances while `ip->opcode != scm_op_last`, but the table's entries have
opcodes `0 .. scm_op_last - 1` and no sentinel entry exists, so for every
table the iteration reads the entry at index `scm_op_last`, one past the
`scm_op_last` allocated entries — both on the very first call and on any
later call. -/
theorem instruction_list_reads_oob (d : List InstrDef) :
    (scm_instruction_list d emptyState).1 = .oobRead ∧
    (scm_instruction_list d (initState d)).1 = .oobRead := by
  have hloop := instrListLoop_oob (buildTable d)
    (fun j e hj => buildTable_opcode d j e hj)
    ((buildTable d).length + 1) 0 [] (by omega) (by omega)
  have hn : scm_op_last d = (buildTable d).length := (buildTable_length d).symm
  constructor
  · simp only [scm_instruction_list, fetch_instruction_table, emptyState, hn]
    exact hloop
  · simp only [scm_instruction_list, fetch_instruction_table, initState, hn]
    exact hloop

/-- C6 (code bug): `opcode->instruction` checks only `opcode < scm_op_last`
before indexing the table, so every negative opcode passes the check and the
table is read out of bounds instead of failing with a wrong-type-argument
error. -/
theorem opcode_to_instruction_negative_reads_oob (d : List InstrDef)
    (op : Int) (hneg : op < 0) :
    (scm_opcode_to_instruction d (initState d) op).1 = .oobRead := by
  have h1 : op < (scm_op_last d : Int) :=
    lt_of_lt_of_le hneg (by exact_mod_cast Int.ofNat_nonneg (scm_op_last d))
  simp only [scm_opcode_to_instruction, if_pos h1]
  rw [if_neg (by omega : ¬ (0 : Int) ≤ op)]

/-- Witness for C6: on the empty table, opcode `-1` triggers the
out-of-bounds read. -/
theorem opcode_to_instruction_negative_reads_oob_witness :
    (scm_opcode_to_instruction [] (initState []) (-1)).1 = .oobRead :=
  opcode_to_instruction_negative_reads_oob [] (-1) (by decide)

/-- C7: the instruction table is read-only after its lazy one-time
initialization.  For any state in which both statics are initialized, every
public registry operation returns the state unchanged (so every field of
every table entry is unchanged), and calling the table accessor twice yields
the same table contents. -/
theorem registry_readonly (d : List InstrDef) (s : InstrState)
    (t : List ScmInstruction) (h : List (String × Nat)) (nm : String)
    (op : Int) (ht : s.table = some t) (hb : s.byName = some h) :
    fetch_instruction_table d s = (t, s) ∧
    (scm_lookup_instruction_by_name d s nm).2 = s ∧
    (scm_instruction_list d s).2 = s ∧
    (scm_instruction_p d s nm).2 = s ∧
    (scm_instruction_length d s nm).2 = s ∧
    (scm_instruction_pops d s nm).2 = s ∧
    (scm_instruction_pushes d s nm).2 = s ∧
    (scm_instruction_to_opcode d s nm).2 = s ∧
    (scm_opcode_to_instruction d s op).2 = s ∧
    (fetch_instruction_table d ((fetch_instruction_table d s).2)).1 =
      (fetch_instruction_table d s).1 := by
  have hf : fetch_instruction_table d s = (t, s) := by
    simp [fetch_instruction_table, ht]
  have hl : (scm_lookup_instruction_by_name d s nm).2 = s := by
    simp only [scm_lookup_instruction_by_name, hf, hb]
    cases hashqRef h nm <;> rfl
  refine ⟨hf, hl, ?_, ?_, ?_, ?_, ?_, ?_, ?_, ?_⟩
  · simp [scm_instruction_list, hf]
  · simp [scm_instruction_p, hl]
  · simp only [scm_instruction_length]
    cases hr : (scm_lookup_instruction_by_name d s nm).1 <;> simp [hr, hl]
  · simp only [scm_instruction_pops]
    cases hr : (scm_lookup_instruction_by_name d s nm).1 <;> simp [hr, hl]
  · simp only [scm_instruction_pushes]
    cases hr : (scm_lookup_instruction_by_name d s nm).1 <;> simp [hr, hl]
  · simp only [scm_instruction_to_opcode]
    cases hr : (scm_lookup_instruction_by_name d s nm).1 <;> simp [hr, hl]
  · by_cases hop : op < (scm_op_last d : Int)
    · simp only [scm_opcode_to_instruction, if_pos hop, hf]
      by_cases h0 : (0 : Int) ≤ op
      · rw [if_pos h0]
        cases hg : t.get? op.toNat with
        | none => simp [hg]
        | some e => cases hs : e.symname <;> simp [hg, hs]
      · rw [if_neg h0]
    · simp [scm_opcode_to_instruction, hop]
  · rw [hf]
    rw [hf]

/-- Witness for C7 at a concrete initialized state built from the sample
table. -/
theorem registry_readonly_witness :
    fetch_instruction_table sampleDefs (initState sampleDefs) =
      (buildTable sampleDefs, initState sampleDefs) ∧
    (scm_instruction_list sampleDefs (initState sampleDefs)).2 =
      initState sampleDefs :=
  have hall := registry_readonly sampleDefs (initState sampleDefs)
    (buildTable sampleDefs) (buildByName (buildTable sampleDefs)) "nop" 0
    rfl rfl
  ⟨hall.1, hall.2.2.1⟩

/-- C8: for a registered instruction name, `instruction-length` returns that
entry's `len` field (whose value -1 is the variable-length sentinel),
`instruction-pops` returns its `npop` field (-1 the variable-arity sentinel),
and `instruction-pushes` returns its `npush` field. -/
theorem instruction_metadata_fields (d : List InstrDef) (nm : String)
    (ip : ScmInstruction)
    (h : (scm_lookup_instruction_by_name d (initState d) nm).1 = some ip) :
    (scm_instruction_length d (initState d) nm).1 = .ok ip.len ∧
    (scm_instruction_pops d (initState d) nm).1 = .ok ip.npop ∧
    (scm_instruction_pushes d (initState d) nm).1 = .ok ip.npush := by
  refine ⟨?_, ?_, ?_⟩
  · simp only [scm_instruction_length, h]
  · simp only [scm_instruction_pops, h]
  · simp only [scm_instruction_pushes, h]

/-- Witness for C8: on the sample table, the entry named "nop" reports
`len = 1`, `npop = 0`, `npush = 0`. -/
theorem instruction_metadata_fields_witness :
    (scm_instruction_length sampleDefs (initState sampleDefs) "nop").1 =
      .ok 1 ∧
    (scm_instruction_pops sampleDefs (initState sampleDefs) "nop").1 =
      .ok 0 ∧
    (scm_instruction_pushes sampleDefs (initState sampleDefs) "nop").1 =
      .ok 0 :=
  instruction_metadata_fields sampleDefs "nop"
    ⟨0, some "nop", 1, 0, 0, some "nop"⟩ (by rfl)

/-- C9: `instruction?` returns true exactly on the registered instruction
names, and on any other argument each of `instruction-length`,
`instruction-pops`, `instruction-pushes` and `instruction->opcode` fails with
a wrong-type-argument error, leaving the table and the name index (the
state) unchanged. -/
theorem unregistered_name_errors (d : List InstrDef) (nm : String) :
    ((scm_instruction_p d (initState d) nm).1 = true ↔ registered d nm) ∧
    (scm_instruction_p d (initState d) nm).2 = initState d ∧
    (¬ registered d nm →
      scm_instruction_length d (initState d) nm =
        (.wrongType, initState d) ∧
      scm_instruction_pops d (initState d) nm =
        (.wrongType, initState d) ∧
      scm_instruction_pushes d (initState d) nm =
        (.wrongType, initState d) ∧
      scm_instruction_to_opcode d (initState d) nm =
        (.wrongType, initState d)) := by
  refine ⟨?_, ?_, ?_⟩
  · rw [show (scm_instruction_p d (initState d) nm).1 =
        (scm_lookup_instruction_by_name d (initState d) nm).1.isSome from rfl]
    exact lookup_initState_isSome_iff d nm
  · simp [scm_instruction_p, lookup_initState_snd]
  · intro hreg
    have hnone : (scm_lookup_instruction_by_name d (initState d) nm).1 =
        none := by
      rcases ho : (scm_lookup_instruction_by_name d (initState d) nm).1 with
        _ | ip
      · rfl
      · exact absurd ((lookup_initState_isSome_iff d nm).mp (by rw [ho]; rfl))
          hreg
    have hsnd := lookup_initState_snd d nm
    refine ⟨?_, ?_, ?_, ?_⟩
    · simp only [scm_instruction_length, hnone]
      rw [hsnd]
    · simp only [scm_instruction_pops, hnone]
      rw [hsnd]
    · simp only [scm_instruction_pushes, hnone]
      rw [hsnd]
    · simp only [scm_instruction_to_opcode, hnone]
      rw [hsnd]

/-- Witness for C9: "frobnicate" is not a registered name of the sample
table, so the accessors fail with the wrong-type error and leave the state
unchanged; "nop" is registered and `instruction?` accepts it. -/
theorem unregistered_name_errors_witness :
    (scm_instruction_p sampleDefs (initState sampleDefs) "nop").1 = true ∧
    scm_instruction_length sampleDefs (initState sampleDefs) "frobnicate" =
      (.wrongType, initState sampleDefs) :=
  ⟨(unregistered_name_errors sampleDefs "nop").1.mpr (by decide),
   ((unregistered_name_errors sampleDefs "frobnicate").2.2 (by decide)).1⟩

/-- C2: registering a native subroutine with `req + opt` strictly greater than
the bound `SCM_GSUBR_MAX = 33` fails with `InvalidArity`, and registering with
`req + opt` exactly 33 succeeds, returning the arity descriptor packed exactly
as `SCM_GSUBR_MAKTYPE` prescribes. -/
theorem make_gsubr_arity_bound (req opt : Nat) (rst : Bool) :
    (SCM_GSUBR_MAX < req + opt →
      scm_c_make_gsubr req opt rst = .error .InvalidArity) ∧
    (req + opt = SCM_GSUBR_MAX →
      scm_c_make_gsubr req opt rst =
        .ok (SCM_GSUBR_MAKTYPE req opt (if rst then 1 else 0))) := by
  constructor
  · intro h
    simp [scm_c_make_gsubr, h]
  · intro h
    simp [scm_c_make_gsubr, h]

/-- Witness for C2 at concrete inputs: 34 required + 0 optional fails with
`InvalidArity`; 33 required + 0 optional succeeds. -/
theorem make_gsubr_arity_bound_witness :
    scm_c_make_gsubr 34 0 false = .error .InvalidArity ∧
    scm_c_make_gsubr 33 0 true =
      .ok (SCM_GSUBR_MAKTYPE 33 0 (if true then 1 else 0)) :=
  ⟨(make_gsubr_arity_bound 34 0 false).1 (by decide),
   (make_gsubr_arity_bound 33 0 true).2 (by decide)⟩

/-- C3 counterexample: the claimed round-trip fails within the claimed range
`req + opt ≤ 33`.  At `req = 16, opt = 0, rst = 0` the packed descriptor is
16, and `SCM_GSUBR_REQ` recovers `16 &&& 0xf = 0 ≠ 16` (the `req` field is
only 4 bits wide). -/
theorem maktype_roundtrip_counterexample :
    ¬ (∀ req opt rst : Nat, req + opt ≤ 33 → rst ≤ 1 →
        SCM_GSUBR_REQ (SCM_GSUBR_MAKTYPE req opt rst) = req ∧
        SCM_GSUBR_OPT (SCM_GSUBR_MAKTYPE req opt rst) = opt ∧
        SCM_GSUBR_REST (SCM_GSUBR_MAKTYPE req opt rst) = rst) := by
  intro h
  have h16 := (h 16 0 0 (by decide) (by decide)).1
  revert h16
  decide

/-- C3 amended: the decoders recover the packed counts exactly when each count
fits its bit field: `req < 16` (4 bits), `opt < 16` (4 bits), `rst < 2`. -/
theorem maktype_roundtrip :
    ∀ req < 16, ∀ opt < 16, ∀ rst < 2,
      SCM_GSUBR_REQ (SCM_GSUBR_MAKTYPE req opt rst) = req ∧
      SCM_GSUBR_OPT (SCM_GSUBR_MAKTYPE req opt rst) = opt ∧
      SCM_GSUBR_REST (SCM_GSUBR_MAKTYPE req opt rst) = rst := by
  decide

/-- Witness for the amended C3 round-trip at `req = 3, opt = 2, rst = 1`. -/
theorem maktype_roundtrip_witness :
    SCM_GSUBR_REQ (SCM_GSUBR_MAKTYPE 3 2 1) = 3 ∧
    SCM_GSUBR_OPT (SCM_GSUBR_MAKTYPE 3 2 1) = 2 ∧
    SCM_GSUBR_REST (SCM_GSUBR_MAKTYPE 3 2 1) = 1 :=
  maktype_roundtrip 3 (by decide) 2 (by decide) 1 (by decide)

/-! ## The JIT core

The emitter itself (`jit_begin`, `jit_beqr_f`, `jit_reti`, `jit_patch_here`,
`jit_end`, the code buffer) is outside the excerpt: only its test driver
tests/beqr_f.c is present.  Following the spec we model the abstract
instruction stream a session emits, the relocation/patch discipline, IEEE 754
equality as the float branch predicate, and the buffer-bound check. -/

inductive JitError where
  | BufferOverflow
  | UnresolvedRelocation
deriving DecidableEq

/-- Modelled from the spec: the CodeBuffer of the absent emitter —
`{base, capacity, cursor}` with the byte store made explicit; the invariant
is `0 ≤ cursor ≤ capacity`, all writes occur at `cursor` and advance it. -/
structure CodeBuffer where
  capacity : Nat
  cursor : Nat
  data : List Nat
deriving DecidableEq

/-- Write `bytes` into `data` starting at `pos` (within-capacity writes). -/
def writeBytes (data : List Nat) (pos : Nat) : List Nat → List Nat
  | [] => data
  | b :: bs => writeBytes (data.set pos b) (pos + 1) bs

/-- Modelled from the spec: the emission primitive of the absent emitter.
"reserve(n) or the implicit check before every emit fails with a
BufferOverflow condition if cursor + n > capacity; the emitter must perform
this check before writing" — so on overflow the buffer is returned
untouched. -/
def emit (buf : CodeBuffer) (bytes : List Nat) :
    Except JitError Unit × CodeBuffer :=
  if buf.capacity < buf.cursor + bytes.length then
    (.error .BufferOverflow, buf)
  else
    (.ok (), { capacity := buf.capacity, cursor := buf.cursor + bytes.length,
               data := writeBytes buf.data buf.cursor bytes })

/-- Symbolic IEEE 754 float values: NaN, negative zero, and finite values as
rationals (`val 0` is +0.0).  This carrier suffices for every case the claim
quantifies over. -/
inductive IEEEFloat where
  | nan
  | negZero
  | val (q : ℚ)
deriving DecidableEq

/-- Modelled from the spec: the branch predicate of the absent
`jit_beqr_f` — "a compare-branch-if-equal on two float operands takes the
branch iff the values are numerically equal (in particular, +0.0 and -0.0
compare equal; NaN compares unequal to everything including itself)". -/
def ieeeEq : IEEEFloat → IEEEFloat → Bool
  | .nan, _ => false
  | _, .nan => false
  | .negZero, .negZero => true
  | .negZero, .val q => q = 0
  | .val q, .negZero => q = 0
  | .val p, .val q => p = q

/-- The numeric reading of a float: none for NaN, the denoted rational
otherwise (both zeros denote 0). -/
def toRatQ : IEEEFloat → Option ℚ
  | .nan => none
  | .negZero => some 0
  | .val q => some q

/-- "Numerically equal under IEEE 754 semantics": both values denote the same
rational (NaN denotes none and is equal to nothing). -/
def numericallyEqual (a b : IEEEFloat) : Prop :=
  ∃ q, toRatQ a = some q ∧ toRatQ b = some q

instance (a b : IEEEFloat) : Decidable (numericallyEqual a b) := by
  unfold numericallyEqual
  cases toRatQ a <;> cases toRatQ b <;> simp <;> infer_instance

/-- One abstract emitted operation of the session in tests/beqr_f.c: the
float compare-branch (with its relocation target, `none` while unresolved)
and return-immediate. -/
inductive JitOp where
  | beqrF (a b : Nat) (target : Option Nat)
  | reti (v : Int)
deriving DecidableEq

/-- Modelled from the spec: a Session — the emitted abstract operation
stream plus the set of still-unresolved relocations. -/
structure JitSession where
  code : List JitOp
  openRelocs : List Nat
deriving DecidableEq

def jit_begin : JitSession := ⟨[], []⟩

/-- Modelled from the spec: `jit_beqr_f` emits a float compare-branch whose
target is not yet known and returns a relocation handle for it. -/
def jit_beqr_f (s : JitSession) (a b : Nat) : Nat × JitSession :=
  (s.code.length,
   ⟨s.code ++ [.beqrF a b none], s.openRelocs ++ [s.code.length]⟩)

/-- Modelled from the spec: `jit_reti` emits return-with-immediate. -/
def jit_reti (s : JitSession) (v : Int) : JitSession :=
  ⟨s.code ++ [.reti v], s.openRelocs⟩

def patchOp : JitOp → Nat → JitOp
  | .beqrF a b _, t => .beqrF a b (some t)
  | op, _ => op

/-- Modelled from the spec: "patch-here is shorthand for
patch(reloc, current_cursor)" — the relocation is resolved to the offset of
the next operation to be emitted and leaves the open set. -/
def jit_patch_here (s : JitSession) (r : Nat) : JitSession :=
  ⟨(match s.code.get? r with
    | some op => s.code.set r (patchOp op s.code.length)
    | none => s.code),
   s.openRelocs.filter (fun x => x ≠ r)⟩

/-- Modelled from the spec: `jit_end` fails with UnresolvedRelocation while
any relocation is unpatched, else yields the finished operation stream (the
callable). -/
def jit_end (s : JitSession) : Except JitError (List JitOp) :=
  if s.openRelocs.isEmpty then .ok s.code else .error .UnresolvedRelocation

/-- Modelled from the spec: execution of the finalized operation stream —
the compare-branch transfers control to its patched target iff `ieeeEq`
holds of the two float registers, else falls through; `reti` returns.
`fuel` bounds the steps; `none` is a stuck/non-terminating run. -/
def execJit (code : List JitOp) (fpr : Nat → IEEEFloat) :
    Nat → Nat → Option Int
  | 0, _ => none
  | fuel + 1, pc =>
      match code.get? pc with
      | none => none
      | some (.reti v) => some v
      | some (.beqrF _ _ none) => none
      | some (.beqrF a b (some t)) =>
          if ieeeEq (fpr a) (fpr b) then execJit code fpr fuel t
          else execJit code fpr fuel (pc + 1)

/-- The `run_test` session of tests/beqr_f.c, step by step:
`r = jit_beqr_f(F0, F1); jit_reti(0); jit_patch_here(r); jit_reti(1);
jit_end`. -/
def run_test_code : Except JitError (List JitOp) :=
  let s0 := jit_begin
  let rs1 := jit_beqr_f s0 0 1
  let s2 := jit_reti rs1.2 0
  let s3 := jit_patch_here s2 rs1.1
  let s4 := jit_reti s3 1
  jit_end s4

/-- The generated function of `run_test`: `jit_receive`/`jit_load_args` put
the two float arguments into F0 (register 0) and F1 (register 1), and the
finalized code runs from offset 0. -/
def run_test_f (a b : IEEEFloat) : Option Int :=
  match run_test_code with
  | .error _ => none
  | .ok code =>
      execJit code (fun i => if i = 0 then a else if i = 1 then b else .nan)
        (code.length + 1) 0

theorem ieeeEq_iff (a b : IEEEFloat) :
    ieeeEq a b = true ↔ numericallyEqual a b := by
  cases a <;> cases b <;>
    simp [ieeeEq, numericallyEqual, toRatQ, eq_comm]

theorem run_test_f_eq (a b : IEEEFloat) :
    run_test_f a b = some (if ieeeEq a b then 1 else 0) := by
  have hcode : run_test_code =
      .ok [.beqrF 0 1 (some 2), .reti 0, .reti 1] := rfl
  by_cases h : ieeeEq a b = true
  · simp [run_test_f, hcode, execJit, h]
  · simp [run_test_f, hcode, execJit, h]

/-- C1: the function generated by `run_test` (receive two floats into F0/F1,
branch-if-equal-float forward, else return 0, at the patched label return 1)
returns 1 iff its arguments are numerically equal under IEEE 754 semantics
and 0 otherwise; in particular f(0,0)=1, f(0,1)=0, f(1,0)=0, f(-1,0)=0,
f(0,-1)=0, f(1,1)=1, f(0.0,-0.0)=1 and f(NaN,NaN)=0. -/
theorem beqr_f_generated_function_correct :
    (∀ a b, (run_test_f a b = some 1 ↔ numericallyEqual a b) ∧
            (run_test_f a b = some 0 ↔ ¬ numericallyEqual a b)) ∧
    run_test_f (.val 0) (.val 0) = some 1 ∧
    run_test_f (.val 0) (.val 1) = some 0 ∧
    run_test_f (.val 1) (.val 0) = some 0 ∧
    run_test_f (.val (-1)) (.val 0) = some 0 ∧
    run_test_f (.val 0) (.val (-1)) = some 0 ∧
    run_test_f (.val 1) (.val 1) = some 1 ∧
    run_test_f (.val 0) .negZero = some 1 ∧
    run_test_f .nan .nan = some 0 := by
  have hmain : ∀ a b, (run_test_f a b = some 1 ↔ numericallyEqual a b) ∧
      (run_test_f a b = some 0 ↔ ¬ numericallyEqual a b) := by
    intro a b
    rw [run_test_f_eq]
    by_cases h : ieeeEq a b = true
    · have hn := (ieeeEq_iff a b).mp h
      simp [h, hn]
    · have hn : ¬ numericallyEqual a b := fun hc => h ((ieeeEq_iff a b).mpr hc)
      simp [h, hn]
  refine ⟨hmain, ?_, ?_, ?_, ?_, ?_, ?_, ?_, ?_⟩ <;>
    rw [run_test_f_eq] <;> norm_num [ieeeEq]

/-- C10: an emission needing `n` bytes with `cursor + n > capacity` fails
with BufferOverflow; the check happens before any write, so the cursor and
every byte of the buffer (in particular those at and beyond the cursor) are
unchanged. -/
theorem emit_overflow_no_mutation (buf : CodeBuffer) (bytes : List Nat)
    (n : Nat) (hn : bytes.length = n)
    (hov : buf.capacity < buf.cursor + n) :
    (emit buf bytes).1 = .error .BufferOverflow ∧
    (emit buf bytes).2 = buf ∧
    (emit buf bytes).2.cursor = buf.cursor ∧
    (∀ i, buf.cursor ≤ i →
      (emit buf bytes).2.data.get? i = buf.data.get? i) := by
  subst hn
  refine ⟨?_, ?_, ?_, ?_⟩ <;> simp [emit, hov]

/-- Witness for C10: a buffer of capacity 2 with cursor 1 rejects a 2-byte
emission and is left exactly as it was. -/
theorem emit_overflow_no_mutation_witness :
    (emit ⟨2, 1, [0, 0]⟩ [7, 7]).1 = .error .BufferOverflow ∧
    (emit ⟨2, 1, [0, 0]⟩ [7, 7]).2 = ⟨2, 1, [0, 0]⟩ :=
  have h := emit_overflow_no_mutation ⟨2, 1, [0, 0]⟩ [7, 7] 2 rfl (by decide)
  ⟨h.1, h.2.1⟩

end Guile
